import Mathlib

/-!
Verification development for the JSONdent repository: a streaming JSON
pretty-printer (src/json.h, src/indent.cc).  The input stream is modelled
as a List Char of bytes; istream state is the remaining list.  Functions
that can loop forever in the C++ are given explicit fuel; the result type
PRes distinguishes success, a thrown InvalidJSON, and divergence.
-/

namespace JSONdent

/-- Result of running a parser fragment: success, a thrown InvalidJSON
exception carrying its message, or divergence (the fuel given to a loop
ran out; for the loops modelled here this happens exactly when the C++
code would loop forever). -/
inductive PRes (α : Type) where
  | ok : α → PRes α
  | err : String → PRes α
  | div : PRes α
deriving DecidableEq

/-- C isspace in the default locale: space, tab, newline, vertical tab,
form feed, carriage return. -/
def isSpaceB (c : Char) : Bool :=
  c = ' ' || c = '\t' || c = '\n' || c = '\x0b' || c = '\x0c' || c = '\r'

/-- C isdigit, on the character's code (48 to 57 are the digits). -/
def isDigitB (c : Char) : Bool :=
  48 ≤ c.toNat && c.toNat ≤ 57

/-- skipSpace (src/json.h:23): consume whitespace; the int it returns
(peek, or -1 at end-of-stream) is recovered from the head of the result. -/
def skipSpaceF : List Char → List Char
  | [] => []
  | c :: cs => if isSpaceB c then skipSpaceF cs else c :: cs

/-- expectAfterSpace (src/json.h:31): skipSpace, then the next character
must be the expected one and is consumed; otherwise InvalidJSON.  At
end-of-stream the C++ compares the expected character against (char)-1,
which never matches a JSON punctuation character. -/
def expectAfterSpace (l : List Char) (expected : Char) : PRes (List Char) :=
  match skipSpaceF l with
  | [] => .err ("expected '" ++ Char.toString expected ++ "', got eof")
  | c :: cs =>
    if c = expected then .ok cs
    else .err ("expected '" ++ Char.toString expected ++ "', got '" ++ Char.toString c ++ "'")

/-- skipText (src/json.h:41): consume the exact literal text or fail.
The full literal is kept for the error message. -/
def skipTextF (orig : String) : List Char → List Char → PRes (List Char)
  | l, [] => .ok l
  | c :: cs, t :: ts =>
    if c = t then skipTextF orig cs ts else .err ("expected '" ++ orig ++ "'")
  | [], _ :: _ => .err ("expected '" ++ orig ++ "'")

/-- The JSON type tags (enum Type, src/json.h:21). -/
inductive JType where
  | JArray | JBoolean | JNull | JNumber | JObject | JString | JEof
deriving DecidableEq

/-- peekType (src/json.h:52): classify the next value by its first
non-space character.  skipSpace consumes the whitespace; the significant
character itself is not consumed. -/
def peekTypeF (l : List Char) : PRes (JType × List Char) :=
  match skipSpaceF l with
  | [] => .ok (.JEof, [])
  | c :: cs =>
    if c = '\x7b' then .ok (.JObject, c :: cs)
    else if c = '[' then .ok (.JArray, c :: cs)
    else if c = '"' then .ok (.JString, c :: cs)
    else if c = '-' then .ok (.JNumber, c :: cs)
    else if c = 't' || c = 'f' then .ok (.JBoolean, c :: cs)
    else if c = 'n' then .ok (.JNull, c :: cs)
    else if isDigitB c then .ok (.JNumber, c :: cs)
    else .err ("unexpected token '" ++ Char.toString c ++ "' at start of JSON object")

/-- The digit-accumulation loop of parseInt (src/json.h:90):
rv = rv * 10 + c - '0' while digits remain.  In the default number mode
the accumulator type is long double; its arithmetic is exact for every
value considered by the theorems below, so the accumulation is modelled
with exact natural numbers. -/
def digitLoop : List Char → Nat → Nat × List Char
  | [], acc => (acc, [])
  | c :: cs, acc =>
    if isDigitB c then digitLoop cs (acc * 10 + (c.toNat - 48)) else (acc, c :: cs)

/-- parseInt (src/json.h:75): optional leading minus after whitespace;
then either a single leading zero (consumed, value 0, any further digits
are left unread) or a digit run; otherwise InvalidJSON. -/
def parseIntRaw (l : List Char) : PRes (Int × List Char) :=
  match skipSpaceF l with
  | [] => .err "expected digit"
  | c :: cs =>
    let sr : Int × List Char := if c = '-' then (-1, cs) else (1, c :: cs)
    match sr.2 with
    | c2 :: cs2 =>
      if c2 = '0' then .ok (0, cs2)
      else if isDigitB c2 then
        let dr := digitLoop (c2 :: cs2) 0
        .ok (sr.1 * (dr.1 : Int), dr.2)
      else .err "expected digit"
    | [] => .err "expected digit"

/-- Conversion of the parsed value to the 64-bit signed long returned by
parseNumber<long> (src/json.h:138, which parses via parseInt<long double>
and converts at return).  For values outside the long range the C++
conversion has no defined result; any 64-bit outcome refutes the C2
round-trip (theorem renderLong_int64_range_ne_literal); the executable
model uses the two's-complement wrap into that range. -/
def toInt64 (x : Int) : Int :=
  (x + 2 ^ 63) % 2 ^ 64 - 2 ^ 63

/-- Decimal digit characters of n, most significant first, empty for 0.
The fuel argument (instantiated with n itself) only makes the division
recursion structural. -/
def natDigitsAux : Nat → Nat → List Char
  | 0, _ => []
  | f + 1, n =>
    if n = 0 then []
    else natDigitsAux f (n / 10) ++ [Char.ofNat (48 + n % 10)]

/-- Decimal digits of n, most significant first, empty for 0. -/
def natDigits (n : Nat) : List Char :=
  natDigitsAux n n

/-- Decimal rendering of a natural number as ostream does. -/
def natRepr (n : Nat) : String :=
  if n = 0 then "0" else String.mk (natDigits n)

/-- Rendering of a long by ostream operator<< (used by prettyNumber,
src/indent.cc:66). -/
def renderLong (i : Int) : String :=
  if i < 0 then "-" ++ natRepr i.natAbs else natRepr i.toNat

/-- parseNumber<long> (src/json.h:138), the default non-float mode:
parseInt accumulation, converted to long at return. -/
def parseNumberLong (l : List Char) : PRes (Int × List Char) :=
  match parseIntRaw l with
  | .ok (v, rest) => .ok (toInt64 v, rest)
  | .err e => .err e
  | .div => .div

/-- prettyNumber (src/indent.cc:66) in the default mode:
o << parseNumber<long>(i). -/
def prettyNumberF (l : List Char) : PRes (String × List Char) :=
  match parseNumberLong l with
  | .ok (v, rest) => .ok (renderLong v, rest)
  | .err e => .err e
  | .div => .div

/-- hexval (src/json.h:143).  The C++ error message is built by the
expression "not a hex char: " + c, which offsets the string literal by
the character value and yields indeterminate text; the model uses the
intended fixed message. -/
def hexval (c : Char) : PRes Nat :=
  if '0' ≤ c ∧ c ≤ '9' then .ok (c.toNat - 48)
  else if 'A' ≤ c ∧ c ≤ 'F' then .ok (c.toNat - 65 + 10)
  else if 'a' ≤ c ∧ c ≤ 'f' then .ok (c.toNat - 97 + 10)
  else .err "not a hex char"

/-- One lowercase hex digit. -/
def hexDigitChar (n : Nat) : Char :=
  if n < 10 then Char.ofNat (48 + n) else Char.ofNat (87 + n)

/-- Hex digit characters of n, most significant first, empty for 0
(same fuel pattern as natDigitsAux). -/
def hexDigitsAux : Nat → Nat → List Char
  | 0, _ => []
  | f + 1, n =>
    if n = 0 then []
    else hexDigitsAux f (n / 16) ++ [hexDigitChar (n % 16)]

/-- Minimal-width lowercase hex rendering, as ostream does under
std::hex with no width: this is what the control-character branch of
escape (src/json.h:340) emits after the backslash-u. -/
def hexStr (n : Nat) : String :=
  if n = 0 then "0" else String.mk (hexDigitsAux n n)

/-- Hex rendering padded on the left with zeros to at least four digits,
as ostream does under setfill('0') and setw(4): the multibyte branch of
escape (src/json.h:357) emits this. -/
def hex4pad (n : Nat) : String :=
  String.mk (List.replicate (4 - (hexStr n).length) '0') ++ hexStr n

/-- UTF-8 encoding, operator<<(ostream, UTF8) (src/json.h:159).  The C++
loop finds the least byteCount whose mask (0x7ff, 0xffff, 0x1fffff, ...)
covers the value, unrolled here for the code-point range reachable in
this program (below 2^21; a backslash-u escape gives below 2^16).  Each
continuation byte is (value >> 6k & ~0xc0) | 0x80 truncated to a byte,
which equals (value >> 6k) & 0x3f | 0x80. -/
def encodeUTF8 (code : Nat) : List Char :=
  if code < 0x80 then [Char.ofNat code]
  else
    let bc : Nat × Nat :=
      if code ≤ 0x7ff then (1, 0xc0)
      else if code ≤ 0xffff then (2, 0xe0)
      else if code ≤ 0x1fffff then (3, 0xf0)
      else (4, 0xf8)
    Char.ofNat ((code >>> (6 * bc.1)) ||| bc.2) ::
      ((List.range bc.1).reverse.map
        (fun k => Char.ofNat (((code >>> (6 * k)) &&& 0x3f) ||| 0x80)))

/-- One istream get(c) from src/json.h's parseString loop: when the
stream is exhausted the C++ get sets failbit and leaves the target
unmodified, so the loop variable keeps the previous iteration's
character; that carried value is the second argument. -/
def getC : List Char → Char → Char × List Char
  | [], last => (last, [])
  | c :: cs, _ => (c, cs)

/-- The four-hex-digit read of a backslash-u escape inside parseString
(src/json.h:221): codePoint = codePoint * 16 + hexval(c) four times.
Returns the code point, the remaining stream, and the character left in
the loop variable. -/
def hex4 : Nat → Nat → List Char → Char → PRes (Nat × List Char × Char)
  | 0, acc, l, last => .ok (acc, l, last)
  | k + 1, acc, l, last =>
    let g := getC l last
    match hexval g.1 with
    | .ok v => hex4 k (acc * 16 + v) g.2 g.1
    | .err e => .err e
    | .div => .div

/-- The character loop of parseString (src/json.h:187).  The loop can
only end by reading a closing quote or throwing from an escape; at
end-of-stream every get leaves the character unchanged, so the loop body
repeats forever: that is the .div outcome when the fuel runs out. -/
def parseStringLoop : Nat → List Char → Char → String → PRes (String × List Char)
  | 0, _, _, _ => .div
  | f + 1, l, last, acc =>
    let g := getC l last
    let c := g.1
    let l1 := g.2
    if c = '"' then .ok (acc, l1)
    else if c = '\\' then
      let g2 := getC l1 c
      let c2 := g2.1
      let l2 := g2.2
      if c2 = '"' || c2 = '\\' || c2 = '/' then parseStringLoop f l2 c2 (acc.push c2)
      else if c2 = 'b' then parseStringLoop f l2 c2 (acc.push '\x08')
      else if c2 = 'f' then parseStringLoop f l2 c2 (acc.push '\x0c')
      else if c2 = 'n' then parseStringLoop f l2 c2 (acc.push '\n')
      else if c2 = 'r' then parseStringLoop f l2 c2 (acc.push '\x0d')
      else if c2 = 't' then parseStringLoop f l2 c2 (acc.push '\t')
      else if c2 = 'u' then
        match hex4 4 0 l2 c2 with
        | .ok (cp, l3, c3) =>
          parseStringLoop f l3 c3 (acc ++ String.mk (encodeUTF8 cp))
        | .err e => .err e
        | .div => .div
      else .err ("invalid quoted char '" ++ Char.toString c2 ++ "'")
    else parseStringLoop f l1 c (acc.push c)

/-- parseString (src/json.h:182) with explicit fuel for its loop.  The
character variable is declared inside the loop; its value on a first get
from an already-empty stream is indeterminate in the C++ and modelled as
NUL (no theorem depends on that case). -/
def parseStringF (fuel : Nat) (l : List Char) : PRes (String × List Char) :=
  match expectAfterSpace l '"' with
  | .ok rest => parseStringLoop fuel rest '\x00' ""
  | .err e => .err e
  | .div => .div

/-- parseString with fuel input.length + 2: every terminating execution
of the loop consumes at least one character per iteration, so this fuel
suffices for all of them and .div marks exactly the inputs on which the
C++ loops forever. -/
def parseStringS (l : List Char) : PRes (String × List Char) :=
  parseStringF (l.length + 2) l

/-- parseBoolean (src/json.h:237). -/
def parseBooleanF (l : List Char) : PRes (Bool × List Char) :=
  match skipSpaceF l with
  | c :: cs =>
    if c = 't' then
      match skipTextF "true" (c :: cs) "true".data with
      | .ok l2 => .ok (true, l2)
      | .err e => .err e
      | .div => .div
    else if c = 'f' then
      match skipTextF "false" (c :: cs) "false".data with
      | .ok l2 => .ok (false, l2)
      | .err e => .err e
      | .div => .div
    else .err "expected 'true' or 'false'"
  | [] => .err "expected 'true' or 'false'"

/-- parseNull (src/json.h:248). -/
def parseNullF (l : List Char) : PRes (List Char) :=
  skipTextF "null" (skipSpaceF l) "null".data

/-- The leading-ones loop at the start of escape's multibyte branch
(src/json.h:344): mask walks from 0x80 down while the bit is set,
counting the set leading bits and clearing them from the value.  The
mask halves at most eight times, hence the structural fuel of 8 at the
call site.  The malformed-UTF-8 throw inside the C++ loop is guarded by
mask == 0, which the loop condition has already ruled out, so it is
unreachable. -/
def maskLoop : Nat → Nat → Nat → Nat → Nat × Nat
  | 0, _, v, count => (v, count)
  | f + 1, mask, v, count =>
    if mask &&& v ≠ 0 then maskLoop f (mask / 2) (v - mask) (count + 1)
    else (v, count)

/-- The continuation-byte loop of escape (src/json.h:351), reading
count-1 further bytes.  Faithful to the source bug: the test written
c & 0xc0 != 0x80 parses as c & (0xc0 != 0x80), that is c & 1, so the
throw fires exactly when the byte is odd, regardless of its high bits.
Running off the end of the string dereferences past it in the C++
(undefined); modelled as a failure, and no theorem depends on it. -/
def contBytes : Nat → Nat → List Char → PRes (Nat × List Char)
  | 0, v, l => .ok (v, l)
  | k + 1, v, l =>
    match l with
    | [] => .err "escape read past end of string"
    | c :: cs =>
      if c.toNat &&& 1 ≠ 0 then .err "illegal character in multibyte sequence"
      else contBytes k ((v <<< 6) ||| (c.toNat &&& 0x3f)) cs

/-- The character loop of escape (src/json.h:321): short escapes for
backspace, form feed, newline, quote, backslash, carriage return, tab;
other control characters written as backslash-u with UNPADDED hex (the
branch at src/json.h:340 sets std::hex but no fill or width); bytes with
the high bit set decoded as a multibyte sequence and re-escaped as
backslash-u with four-digit padding; everything else written as is. -/
def escapeLoop : Nat → List Char → String → PRes String
  | _, [], acc => .ok acc
  | 0, _ :: _, _ => .div
  | f + 1, c :: cs, acc =>
    let n := c.toNat
    if c = '\x08' then escapeLoop f cs (acc ++ "\\b")
    else if c = '\x0c' then escapeLoop f cs (acc ++ "\\f")
    else if c = '\n' then escapeLoop f cs (acc ++ "\\n")
    else if c = '"' then escapeLoop f cs (acc ++ "\\\"")
    else if c = '\\' then escapeLoop f cs (acc ++ "\\\\")
    else if c = '\x0d' then escapeLoop f cs (acc ++ "\\r")
    else if c = '\t' then escapeLoop f cs (acc ++ "\\t")
    else if n < 32 then escapeLoop f cs (acc ++ "\\u" ++ hexStr n)
    else if n &&& 0x80 ≠ 0 then
      let mv := maskLoop 8 0x80 n 0
      match contBytes (mv.2 - 1) mv.1 cs with
      | .ok (v, cs2) => escapeLoop f cs2 (acc ++ "\\u" ++ hex4pad v)
      | .err e => .err e
      | .div => .div
    else escapeLoop f cs (acc.push c)

/-- escape (src/json.h:321), taking the string's bytes.  The loop
consumes at least one byte per iteration, so fuel length + 1 covers
every execution (escape, unlike parseString, always terminates). -/
def escape (s : List Char) : PRes String :=
  escapeLoop (s.length + 1) s ""

/-- pad (src/indent.cc:13): indentWidth * level spaces, capped at the
8192-byte static buffer.  indentWidth is the -i option, default 2. -/
def pad (iw level : Nat) : String :=
  String.mk (List.replicate (min (iw * level) 8192) ' ')

/- The pretty / prettyArray / prettyObject family (src/indent.cc:20-90)
in the default long number mode, fused with the parseArray / parseObject
traversals (src/json.h:269-319) they drive.  Output is accumulated and
returned rather than written incrementally; fuel bounds the call depth
(each mutual call decreases it by one).  prettyString writes the quoted,
escaped string; note that src/indent.cc names the escaper Escape while
the function in src/json.h is escape. -/
mutual

/-- pretty (src/indent.cc:78): dispatch on peekType; at Eof nothing is
written. -/
def prettyF : Nat → Nat → Nat → List Char → PRes (String × List Char)
  | 0, _, _, _ => .div
  | f + 1, iw, level, l =>
    match peekTypeF l with
    | .err e => .err e
    | .div => .div
    | .ok (t, l1) =>
      match t with
      | .JArray => prettyArrayF f iw level l1
      | .JObject => prettyObjectF f iw level l1
      | .JString =>
        match parseStringS l1 with
        | .ok (s, l2) =>
          match escape s.data with
          | .ok es => .ok ("\"" ++ es ++ "\"", l2)
          | .err e => .err e
          | .div => .div
        | .err e => .err e
        | .div => .div
      | .JNumber => prettyNumberF l1
      | .JBoolean =>
        match parseBooleanF l1 with
        | .ok (b, l2) => .ok (if b then "true" else "false", l2)
        | .err e => .err e
        | .div => .div
      | .JNull =>
        match parseNullF l1 with
        | .ok l2 => .ok ("null", l2)
        | .err e => .err e
        | .div => .div
      | .JEof => .ok ("", l1)
termination_by structural f => f

/-- prettyArray (src/indent.cc:23): writes the open bracket, then drives
parseArray (src/json.h:295), which consumes the bracket and returns at
once on an empty array. -/
def prettyArrayF : Nat → Nat → Nat → List Char → PRes (String × List Char)
  | 0, _, _, _ => .div
  | f + 1, iw, level, l =>
    match expectAfterSpace l '[' with
    | .err e => .err e
    | .div => .div
    | .ok l1 =>
      match skipSpaceF l1 with
      | ']' :: l2 => .ok ("[]", l2)
      | l2 => prettyArrayLoopF f iw level 0 l2 "["
termination_by structural f => f

/-- The element loop of parseArray with prettyArray's visitor: separator
before every element but the first, newline, one more level of padding,
the element itself; then a comma continues and a close bracket ends (the
trailing newline and padding are emitted because the loop only runs for
a nonempty array). -/
def prettyArrayLoopF : Nat → Nat → Nat → Nat → List Char → String → PRes (String × List Char)
  | 0, _, _, _, _, _ => .div
  | f + 1, iw, level, count, l, acc =>
    let l1 := skipSpaceF l
    let acc1 := acc ++ (if count ≠ 0 then "," else "") ++ "\n" ++ pad iw (level + 1)
    match prettyF f iw (level + 1) l1 with
    | .err e => .err e
    | .div => .div
    | .ok (s, l2) =>
      match skipSpaceF l2 with
      | ']' :: l3 => .ok (acc1 ++ s ++ "\n" ++ pad iw level ++ "]", l3)
      | ',' :: l3 => prettyArrayLoopF f iw level (count + 1) l3 (acc1 ++ s)
      | c :: _ => .err ("expected ']' or ',', got '" ++ Char.toString c ++ "'")
      | [] => .err "expected ']' or ',', got eof"
termination_by structural f => f

/-- prettyObject (src/indent.cc:37): writes the open brace, then drives
parseObject (src/json.h:269). -/
def prettyObjectF : Nat → Nat → Nat → List Char → PRes (String × List Char)
  | 0, _, _, _ => .div
  | f + 1, iw, level, l =>
    match expectAfterSpace l '\x7b' with
    | .err e => .err e
    | .div => .div
    | .ok l1 => prettyObjectLoopF f iw level 0 l1 "\x7b"
termination_by structural f => f

/-- The field loop of parseObject with prettyObject's visitor.  A quote
begins a field: name, colon, then the visitor writes the separator (only
after the first field), newline, padding, the quoted escaped name, colon
and space, and the field's value; a close brace ends the object (with
newline and padding first when at least one field was written); a comma
is consumed and the loop continues, without any check that a field
preceded it. -/
def prettyObjectLoopF : Nat → Nat → Nat → Nat → List Char → String → PRes (String × List Char)
  | 0, _, _, _, _, _ => .div
  | f + 1, iw, level, count, l, acc =>
    match skipSpaceF l with
    | [] => .err "unexpected character parsing object at eof"
    | c :: cs =>
      if c = '"' then
        match parseStringS (c :: cs) with
        | .ok (name, l2) =>
          match expectAfterSpace l2 ':' with
          | .ok l3 =>
            match escape name.data with
            | .ok en =>
              let acc1 := acc ++ (if count ≠ 0 then "," else "") ++ "\n" ++
                pad iw (level + 1) ++ "\"" ++ en ++ "\": "
              match prettyF f iw (level + 1) l3 with
              | .ok (s, l4) => prettyObjectLoopF f iw level (count + 1) l4 (acc1 ++ s)
              | .err e => .err e
              | .div => .div
            | .err e => .err e
            | .div => .div
          | .err e => .err e
          | .div => .div
        | .err e => .err e
        | .div => .div
      else if c = '\x7d' then
        .ok (acc ++ (if count ≠ 0 then "\n" ++ pad iw level else "") ++ "\x7d", cs)
      else if c = ',' then prettyObjectLoopF f iw level count cs acc
      else .err ("unexpected character '" ++ Char.toString c ++ "' parsing object")
termination_by structural f => f

end

/-- indent (src/indent.cc:100): strip a UTF-8 BOM, render one document
at level 0, then a trailing newline on stdout; an InvalidJSON aborts the
document and prints one diagnostic line on stderr.  Returns (success,
stdout text, stderr text); any input left after the document is ignored.
A malformed BOM throws outside the try block in the C++ (the process
aborts); modelled as .err, which no theorem exercises. -/
def indentF (fuel iw : Nat) (l : List Char) : PRes (Bool × String × String) :=
  let afterBom : PRes (List Char) :=
    match l with
    | a :: rest =>
      if a = '\xef' then
        match rest with
        | b :: c :: l2 =>
          if b = '\xbb' ∧ c = '\xbf' then .ok l2 else .err "invalid BOM/JSON"
        | _ => .err "invalid BOM/JSON"
      else .ok l
    | [] => .ok l
  match afterBom with
  | .err e => .err e
  | .div => .div
  | .ok l1 =>
    match prettyF fuel iw 0 l1 with
    | .ok (s, _) => .ok (true, s ++ "\n", "")
    | .err e => .ok (false, "", "invalid JSON: " ++ e ++ "\n")
    | .div => .div

/-- What happened to one file operand of main. -/
inductive DocOutcome where
  | done : String → DocOutcome
  | failedDoc : String → DocOutcome
  | skipped : DocOutcome
deriving DecidableEq

/-- The operand loop of main (src/indent.cc:139): good = good &&
indent(file).  The && short-circuits, so once good is false the
remaining operands are recorded as skipped: indent is never invoked for
them. -/
def processOperands (fuel iw : Nat) : List (List Char) → Bool → PRes (Bool × List DocOutcome)
  | [], good => .ok (good, [])
  | d :: ds, good =>
    if good then
      match indentF fuel iw d with
      | .ok (b, out, errs) =>
        match processOperands fuel iw ds b with
        | .ok (g, rest) => .ok (g, (if b then .done out else .failedDoc errs) :: rest)
        | .err e => .err e
        | .div => .div
      | .err e => .err e
      | .div => .div
    else
      match processOperands fuel iw ds false with
      | .ok (g, rest) => .ok (g, .skipped :: rest)
      | .err e => .err e
      | .div => .div

/-- main (src/indent.cc:126) with file operands: process them through
the operand loop; exit status 0 when every document succeeded, else 1. -/
def mainOperands (fuel iw : Nat) (docs : List (List Char)) : PRes (Nat × List DocOutcome) :=
  match processOperands fuel iw docs true with
  | .ok (good, outs) => .ok ((if good then 0 else 1), outs)
  | .err e => .err e
  | .div => .div

/-- main (src/indent.cc:152) with no operands: one document from stdin;
exit status from that document alone.  Returns (status, stdout text,
stderr text). -/
def mainStdin (fuel iw : Nat) (input : List Char) : PRes (Nat × String × String) :=
  match indentF fuel iw input with
  | .ok (b, out, errs) => .ok ((if b then 0 else 1), out, errs)
  | .err e => .err e
  | .div => .div

/-- A printable ASCII character other than quote and backslash: parsed
by parseString's default branch and written back unchanged by escape. -/
def plainChar (c : Char) : Prop :=
  32 ≤ c.toNat ∧ c.toNat < 128 ∧ c ≠ '"' ∧ c ≠ '\\'

instance decPlainChar (c : Char) : Decidable (plainChar c) := by
  unfold plainChar
  infer_instance

/-- Source text of one object field with a number value, no interior
whitespace: quoted name, colon, decimal digits. -/
def encodeField (name : String) (v : Nat) : List Char :=
  '"' :: name.data ++ '"' :: ':' :: (natRepr v).data

/-- Source text of the second and later fields, each preceded by a
comma. -/
def encodeTail (fs : List (String × Nat)) : List Char :=
  fs.foldr (fun p acc => ',' :: encodeField p.1 p.2 ++ acc) []

/-- Source text of an object literal with the given fields in the given
order. -/
def encodeObj (fs : List (String × Nat)) : List Char :=
  match fs with
  | [] => ['\x7b', '\x7d']
  | (n, v) :: rest => '\x7b' :: encodeField n v ++ encodeTail rest ++ ['\x7d']

/-- Rendered text of one field at nesting level 1: newline, one level of
padding, quoted name, colon-space, value. -/
def renderField (iw : Nat) (name : String) (v : Nat) : String :=
  "\n" ++ pad iw 1 ++ "\"" ++ name ++ "\": " ++ natRepr v

/-- Rendered text of the second and later fields, each preceded by the
separator comma. -/
def renderTail (iw : Nat) (fs : List (String × Nat)) : String :=
  fs.foldr (fun p acc => "," ++ renderField iw p.1 p.2 ++ acc) ""

/-- The canonical rendering of an object literal at level 0: fields in
the given order, one per line. -/
def renderObj (iw : Nat) (fs : List (String × Nat)) : String :=
  match fs with
  | [] => "\x7b\x7d"
  | (n, v) :: rest =>
    "\x7b" ++ renderField iw n v ++ renderTail iw rest ++ "\n" ++ "\x7d"

/-! Theorems. -/

/-- skipSpace consumes exactly the leading whitespace. -/
theorem skipSpaceF_eq_dropWhile (l : List Char) :
    skipSpaceF l = l.dropWhile isSpaceB := by
  induction l with
  | nil => rfl
  | cons c cs ih =>
    by_cases h : isSpaceB c <;> simp [skipSpaceF, List.dropWhile_cons, h, ih]

/-- C9, corrected: peekType does advance the cursor, but only across
leading whitespace: whenever it returns a type tag, the stream still to
be read is the input with exactly its whitespace prefix removed (the
significant character is not consumed). -/
theorem peekType_advances_only_whitespace (l : List Char) (t : JType) (rest : List Char)
    (h : peekTypeF l = .ok (t, rest)) : rest = l.dropWhile isSpaceB := by
  unfold peekTypeF at h
  rw [skipSpaceF_eq_dropWhile] at h
  rcases hd : l.dropWhile isSpaceB with _ | ⟨c, cs⟩ <;> rw [hd] at h
  · cases h
    rfl
  · split at h
    all_goals try simp_all
    all_goals split_ifs at h <;> cases h <;> simp_all

/-- Witness for peekType_advances_only_whitespace at the input of one
space then the digit 1. -/
theorem peekType_advances_only_whitespace_witness :
    (['1'] : List Char) = [' ', '1'].dropWhile isSpaceB :=
  peekType_advances_only_whitespace [' ', '1'] .JNumber ['1'] (by rfl)

/-- C9, counterexample to the claim as stated: on the input of a space
followed by the digit 1, peekType returns the Number tag but the stream
still to be read is no longer the original input: the space has been
consumed. -/
theorem peekType_consumes_whitespace_cex :
    peekTypeF [' ', '1'] = .ok (.JNumber, ['1']) ∧ (['1'] : List Char) ≠ [' ', '1'] :=
  ⟨rfl, by decide⟩

/-- Once parseString's input is exhausted, get leaves the loop variable
unchanged, so unless that stale character is the closing quote the loop
repeats the same state forever: no amount of fuel produces a result. -/
theorem parseStringLoop_empty_div (f : Nat) : ∀ (last : Char) (acc : String),
    last ≠ '"' → parseStringLoop f [] last acc = .div := by
  induction f with
  | zero => intro last acc _; rfl
  | succ f ih =>
    intro last acc h
    by_cases hb : last = '\\'
    · subst hb
      show parseStringLoop f [] '\\' (acc.push '\\') = .div
      exact ih _ _ (by decide)
    · simp only [parseStringLoop, getC]
      rw [if_neg h, if_neg hb]
      exact ih _ _ h

/-- C4, code bug: on the unterminated string input quote-a-b-c the C++
parseString never reports UnterminatedString or any other error: at
end-of-stream get fails and leaves the loop character unchanged, so the
loop re-appends the last character forever.  Formally, the fueled
parseString diverges at every fuel. -/
theorem parseString_unterminated_loops_forever :
    ∀ fuel : Nat, parseStringF fuel ("\"abc".data) = .div := by
  intro fuel
  match fuel with
  | 0 => rfl
  | 1 => rfl
  | 2 => rfl
  | 3 => rfl
  | n + 4 =>
    have step : parseStringF (n + 4) ("\"abc".data) =
        parseStringLoop (n + 1) [] 'c' "abc" := rfl
    rw [step]
    exact parseStringLoop_empty_div (n + 1) 'c' "abc" (by decide)

/-- C5, code bug: the continuation-byte check in escape is written
c & 0xc0 != 0x80, which parses as c & (0xc0 != 0x80), i.e. c & 1.  So
escape throws on the valid two-byte sequence C3 A9 (the letter e-acute:
A9 is a well-formed 10xxxxxx continuation byte, but odd), and accepts
C3 28, whose second byte 28 is not a continuation byte at all (high bits
00) but even, producing a bogus code point 0xE8. -/
theorem escape_continuation_check_is_parity :
    escape ['\xc3', '\xa9'] = .err "illegal character in multibyte sequence" ∧
    escape ['\xc3', '\x28'] = .ok "\\u00e8" :=
  ⟨rfl, rfl⟩

/-- C6, code bug: the control-character branch of escape sets std::hex
but neither fill nor width, so the control character 0x02 is written as
backslash-u-2, not the four-digit zero-padded backslash-u-0002 the spec
(and byte-compatibility with python json.tool) requires. -/
theorem escape_control_char_unpadded :
    escape ['\x02'] = .ok "\\u2" ∧ ("\\u2" : String) ≠ "\\u0002" :=
  ⟨rfl, by decide⟩

/-- C3, code bug: rendered output is not a fixed point of render.  The
document quote-backslash-u-0001-quote renders successfully to the five
characters quote-backslash-u-1-quote (unpadded escape, see C6) plus the
trailing newline, with exit status 0; re-rendering that very output
fails with InvalidJSON (the four-hex-digit read of the backslash-u
escape swallows the closing quote, which is not a hex digit), instead of
reproducing it byte-identically. -/
theorem render_output_not_fixed_point :
    mainStdin 2 2 ("\"\\u0001\"".data) = .ok (0, "\"\\u1\"\n", "") ∧
    mainStdin 2 2 ("\"\\u1\"\n".data) = .ok (1, "", "invalid JSON: not a hex char\n") :=
  ⟨rfl, rfl⟩

/-- C7, counterexample to the claim as stated: on the literal 01 the
number parser does not fail; it consumes the single leading zero,
returns the value 0, and leaves the digit 1 unread.  As a whole stdin
document, 01 therefore renders as 0 with exit status 0 and no
diagnostic. -/
theorem parseInt_leading_zero_accepted :
    parseIntRaw ("01".data) = .ok (0, ['1']) ∧
    mainStdin 1 2 ("01".data) = .ok (0, "0\n", "") :=
  ⟨rfl, rfl⟩

/-- C7, amended: parseInt accepts a leading zero by consuming only the
zero and returning 0 with the remaining digits unread; a top-level
document beginning 01 consequently renders as 0 and succeeds (trailing
input is ignored), while inside an array the leftover digit causes the
expected-comma-or-close-bracket error, not a number-parser error. -/
theorem parseInt_leading_zero_behavior :
    (∀ ds : List Char, parseIntRaw ('0' :: ds) = .ok (0, ds)) ∧
    (∀ ds : List Char, mainStdin 1 2 ('0' :: '1' :: ds) = .ok (0, "0\n", "")) ∧
    prettyF 4 2 0 ("[01]".data) = .err "expected ']' or ',', got '1'" :=
  ⟨fun _ => rfl, fun _ => rfl, rfl⟩

/-- C8, code bug: main's operand loop computes good = good &&
indent(file), and && short-circuits, so after the first failed document
indent is never invoked for the remaining operands.  With the operands
x (invalid) and 1 (valid), the first produces its diagnostic and the
second is skipped entirely; the exit status is 1 (that part of the claim
holds). -/
theorem later_operands_skipped_after_failure :
    mainOperands 1 2 [['x'], ['1']] =
      .ok (1, [.failedDoc "invalid JSON: unexpected token 'x' at start of JSON object\n",
               .skipped]) :=
  rfl

/-- C2, counterexample to the claim as stated: in the default mode
parseNumber returns a 64-bit long, and the 21-digit literal 10^20
exceeds its range, so re-rendering cannot reproduce it (the model's
wrapped value 7766279631452241920 is one possible outcome; theorem
renderLong_int64_range_ne_literal below shows every value representable
in 64 bits re-renders as something other than the input literal). -/
theorem number_big_literal_drifts :
    prettyNumberF ("100000000000000000000".data) = .ok ("7766279631452241920", []) ∧
    ("7766279631452241920" : String) ≠ "100000000000000000000" :=
  ⟨rfl, by decide⟩

/-- An all-whitespace stream skips to nothing. -/
theorem skipSpaceF_all_space (l : List Char) (h : ∀ c ∈ l, isSpaceB c = true) :
    skipSpaceF l = [] := by
  induction l with
  | nil => rfl
  | cons c cs ih =>
    have hc := h c (by simp)
    simp only [skipSpaceF, hc, if_true]
    exact ih fun x hx => h x (by simp [hx])

/-- C10, confirmed: on an input that is empty or all whitespace, main
(reading one document from stdin) classifies the document as EndOfInput,
pretty writes nothing, indent appends the one trailing newline, no
diagnostic is produced and the exit status is 0. -/
theorem whitespace_input_one_newline_exit0 (l : List Char) (f : Nat)
    (h : ∀ c ∈ l, isSpaceB c = true) :
    mainStdin (f + 1) 2 l = .ok (0, "\n", "") := by
  have hskip : skipSpaceF l = [] := skipSpaceF_all_space l h
  have hpeek : peekTypeF l = .ok (.JEof, []) := by
    unfold peekTypeF
    rw [hskip]
  have hp : prettyF (f + 1) 2 0 l = .ok ("", []) := by
    simp only [prettyF, hpeek]
  cases l with
  | nil =>
    simp only [mainStdin, indentF, hp]
    rfl
  | cons a as =>
    have ha : isSpaceB a = true := h a (by simp)
    have hne : ¬(a = '\xef') := by
      intro e
      subst e
      simp [isSpaceB] at ha
    simp only [mainStdin, indentF, hne, if_false, hp]
    rfl

/-- Witness for whitespace_input_one_newline_exit0 at a single-space
input. -/
theorem whitespace_input_one_newline_exit0_witness :
    mainStdin 1 2 [' '] = .ok (0, "\n", "") :=
  whitespace_input_one_newline_exit0 [' '] 0 (by decide)

theorem char_toNat_ofNat_small (n : Nat) (h : n < 55296) : (Char.ofNat n).toNat = n := by
  have hv : n.isValidChar := Or.inl h
  simp [Char.ofNat, dif_pos hv, Char.ofNatAux, Char.toNat, UInt32.toNat]

theorem natDigitsAux_zero (f : Nat) : natDigitsAux f 0 = [] := by
  cases f <;> rfl

theorem natDigitsAux_digits (f : Nat) : ∀ n, ∀ c ∈ natDigitsAux f n, isDigitB c = true := by
  induction f with
  | zero => intro n c hc; simp [natDigitsAux] at hc
  | succ f ih =>
    intro n c hc
    by_cases h : n = 0
    · subst h; simp [natDigitsAux] at hc
    · simp only [natDigitsAux, if_neg h, List.mem_append, List.mem_singleton] at hc
      rcases hc with hc | hc
      · exact ih _ c hc
      · subst hc
        have ht : (Char.ofNat (48 + n % 10)).toNat = 48 + n % 10 :=
          char_toNat_ofNat_small _ (by omega)
        have h10 : n % 10 < 10 := Nat.mod_lt _ (by omega)
        simp [isDigitB, ht]
        omega

theorem natDigitsAux_foldl (f : Nat) :
    ∀ n acc, n ≤ f →
      List.foldl (fun a c => a * 10 + (c.toNat - 48)) acc (natDigitsAux f n) =
        acc * 10 ^ (natDigitsAux f n).length + n := by
  induction f with
  | zero =>
    intro n acc h
    interval_cases n
    simp [natDigitsAux]
  | succ f ih =>
    intro n acc h
    by_cases h0 : n = 0
    · subst h0; simp [natDigitsAux]
    · have hrec : n / 10 ≤ f := by omega
      have ht : (Char.ofNat (48 + n % 10)).toNat = 48 + n % 10 :=
        char_toNat_ofNat_small _ (by omega)
      simp only [natDigitsAux, if_neg h0, List.foldl_append, List.foldl_cons, List.foldl_nil,
        List.length_append, List.length_cons, List.length_nil, ih _ acc hrec, ht]
      have : 48 + n % 10 - 48 = n % 10 := by omega
      rw [this]
      have hmod := Nat.div_add_mod n 10
      ring_nf
      omega

theorem natDigitsAux_ne_nil (f : Nat) :
    ∀ n, n ≠ 0 → natDigitsAux (f + 1) n ≠ [] := by
  intro n h0
  simp [natDigitsAux, if_neg h0]

theorem natDigitsAux_head_ne_zero (f : Nat) :
    ∀ n c cs, n ≠ 0 → n ≤ f → natDigitsAux f n = c :: cs → c.toNat ≠ 48 := by
  induction f with
  | zero => intro n c cs h0 h1 _; omega
  | succ f ih =>
    intro n c cs h0 h1 heq
    by_cases hs : n < 10
    · have hd : n / 10 = 0 := by omega
      rw [natDigitsAux, if_neg h0, hd, natDigitsAux_zero] at heq
      simp at heq
      have ht : (Char.ofNat (48 + n % 10)).toNat = 48 + n % 10 :=
        char_toNat_ofNat_small _ (by omega)
      rw [heq.1] at ht
      omega
    · have hne : natDigitsAux f (n / 10) ≠ [] := by
        have : n / 10 ≠ 0 := by omega
        cases hf : f with
        | zero => exfalso; omega
        | succ g => rw [← hf]; rw [hf]; exact natDigitsAux_ne_nil g _ this
      rcases hl : natDigitsAux f (n / 10) with _ | ⟨d, ds⟩
      · exact absurd hl hne
      · rw [natDigitsAux, if_neg h0, hl] at heq
        simp at heq
        have := ih (n / 10) d ds (by omega) (by omega) hl
        rw [heq.1] at this
        exact this

theorem digitLoop_append (ds : List Char) :
    ∀ rest acc, (∀ c ∈ ds, isDigitB c = true) →
      (∀ c ∈ rest.take 1, isDigitB c = false) →
      digitLoop (ds ++ rest) acc =
        (List.foldl (fun a c => a * 10 + (c.toNat - 48)) acc ds, rest) := by
  induction ds with
  | nil =>
    intro rest acc _ hr
    cases rest with
    | nil => rfl
    | cons c cs =>
      have := hr c (by simp)
      simp [digitLoop, this]
  | cons d ds ih =>
    intro rest acc hd hr
    have hdd := hd d (by simp)
    simp only [List.cons_append, digitLoop, hdd, if_true, List.foldl_cons]
    exact ih rest _ (fun c hc => hd c (by simp [hc])) hr

theorem toInt64_of_small (v : Nat) (h : v < 2 ^ 63) : toInt64 (v : Int) = v := by
  unfold toInt64
  have h1 : (0 : Int) ≤ (v : Int) + 2 ^ 63 := by positivity
  have h2 : (v : Int) + 2 ^ 63 < 2 ^ 64 := by
    have : (v : Int) < 2 ^ 63 := by exact_mod_cast h
    norm_num
    omega
  rw [Int.emod_eq_of_lt h1 h2]
  omega

theorem digit_char_facts (d : Char) (hd : isDigitB d = true) :
    isSpaceB d = false ∧ d ≠ '-' ∧ d ≠ '\x7b' ∧ d ≠ '[' ∧ d ≠ '"' ∧
      d ≠ 't' ∧ d ≠ 'f' ∧ d ≠ 'n' := by
  have h48 : 48 ≤ d.toNat ∧ d.toNat ≤ 57 := by simpa [isDigitB] using hd
  refine ⟨?_, ?_, ?_, ?_, ?_, ?_, ?_, ?_⟩
  · simp only [isSpaceB, Bool.or_eq_false_iff, decide_eq_false_iff_not]
    and_intros <;> (intro e; subst e; exact absurd h48.1 (by decide))
  all_goals (intro e; subst e; first
    | exact absurd h48.1 (by decide)
    | exact absurd h48.2 (by decide))

theorem parseIntRaw_natRepr (v : Nat) (rest : List Char)
    (hr : ∀ c ∈ rest.take 1, isDigitB c = false) :
    parseIntRaw ((natRepr v).data ++ rest) = .ok ((v : Int), rest) := by
  by_cases h0 : v = 0
  · subst h0
    cases rest with
    | nil => rfl
    | cons c cs => rfl
  · -- natRepr v = String.mk (natDigitsAux v v), nonempty with non-zero, digit head
    have hne : natDigits v ≠ [] := by
      unfold natDigits
      cases hv : v with
      | zero => exact absurd hv h0
      | succ g => rw [← hv]; rw [hv]; exact natDigitsAux_ne_nil g _ (by omega)
    rcases hl : natDigits v with _ | ⟨d, ds⟩
    · exact absurd hl hne
    · have hdig : ∀ c ∈ natDigits v, isDigitB c = true := natDigitsAux_digits v v
      have hd : isDigitB d = true := by rw [hl] at hdig; exact hdig d (by simp)
      have hdn : d.toNat ≠ 48 := natDigitsAux_head_ne_zero v v d ds h0 (le_refl v) hl
      have hdata : (natRepr v).data = d :: ds := by
        simp [natRepr, if_neg h0, hl]
      rw [hdata]
      obtain ⟨hspace, hminus, -⟩ := digit_char_facts d hd
      have hzero : d ≠ '0' := by
        intro e; subst e
        exact hdn rfl
      unfold parseIntRaw
      simp only [List.cons_append, skipSpaceF, hspace, if_false, Bool.false_eq_true]
      rw [if_neg hminus]
      simp only []
      rw [if_neg hzero]
      have hds : ∀ c ∈ ds, isDigitB c = true := by
        intro c hc
        rw [hl] at hdig
        exact hdig c (by simp [hc])
      rw [hd, if_pos rfl]
      have hloop := digitLoop_append (d :: ds) rest 0 (by
        intro c hc
        rcases List.mem_cons.1 hc with h | h
        · subst h; exact hd
        · exact hds c h) hr
      simp only [List.cons_append] at hloop
      simp only [List.append_eq]
      rw [hloop]
      have hfold := natDigitsAux_foldl v v 0 (le_refl v)
      rw [show natDigitsAux v v = d :: ds from hl, List.foldl_cons] at hfold
      simp only [Nat.zero_mul, Nat.zero_add] at hfold
      simpa using hfold
      
/-- C2, amended: in the default mode the round trip holds exactly for
integer literals whose value fits the signed 64-bit long that
parseNumber<long> returns: for every v below 2^63, parsing and
re-rendering the decimal literal of v reproduces it identically.  (On
the reference platform the long double accumulation is exact throughout
this range; the 21-digit example of the original claim exceeds the long
range and is not reproduced, see number_big_literal_drifts.) -/
theorem number_int64_roundtrip (v : Nat) (h : v < 2 ^ 63) :
    prettyNumberF ((natRepr v).data) = .ok (natRepr v, []) := by
  have hp := parseIntRaw_natRepr v [] (by simp)
  simp only [List.append_nil] at hp
  unfold prettyNumberF parseNumberLong
  rw [hp]
  show PRes.ok (renderLong (toInt64 (v : Int)), []) = _
  rw [toInt64_of_small v h]
  unfold renderLong
  have hnn : ¬((v : Int) < 0) := not_lt.2 (Int.natCast_nonneg v)
  rw [if_neg hnn]
  simp

theorem natDigitsAux_length_le (f : Nat) :
    ∀ n k, n < 10 ^ k → (natDigitsAux f n).length ≤ k := by
  induction f with
  | zero => intro n k _; simp [natDigitsAux]
  | succ f ih =>
    intro n k hk
    by_cases h0 : n = 0
    · subst h0; simp [natDigitsAux]
    · obtain ⟨k', rfl⟩ : ∃ k', k = k' + 1 := by
        refine ⟨k - 1, ?_⟩
        rcases Nat.eq_zero_or_pos k with hz | hpos
        · subst hz; simp at hk; omega
        · omega
      simp only [natDigitsAux, if_neg h0, List.length_append, List.length_cons,
        List.length_nil]
      have hdiv : n / 10 < 10 ^ k' := by
        rw [Nat.div_lt_iff_lt_mul (by norm_num)]
        calc n < 10 ^ (k' + 1) := hk
        _ = 10 ^ k' * 10 := by ring
      have := ih (n / 10) k' hdiv
      omega

theorem natRepr_length_le (v : Nat) (h : v < 10 ^ 19) : (natRepr v).length ≤ 19 := by
  unfold natRepr
  by_cases h0 : v = 0
  · rw [if_pos h0]
    decide
  · rw [if_neg h0]
    have := natDigitsAux_length_le v v 19 h
    simpa [natDigits] using this

/-- No value representable in a signed 64-bit long re-renders as the
21-digit literal of claim C2: whatever the out-of-range conversion
yields, the output has at most 20 characters. -/
theorem renderLong_int64_range_ne_literal (r : Int) (h1 : -(2 ^ 63) ≤ r) (h2 : r < 2 ^ 63) :
    renderLong r ≠ "100000000000000000000" := by
  intro he
  have hlen : (renderLong r).length ≤ 20 := by
    unfold renderLong
    split
    · have hv : r.natAbs < 10 ^ 19 := by
        have h63 : (2 : Nat) ^ 63 < 10 ^ 19 := by norm_num
        omega
      have h19 := natRepr_length_le _ hv
      rw [String.length_append]
      have hone : ("-" : String).length = 1 := rfl
      omega
    · have hv : r.toNat < 10 ^ 19 := by
        have h63 : (2 : Nat) ^ 63 < 10 ^ 19 := by norm_num
        omega
      have := natRepr_length_le _ hv
      omega
  rw [he] at hlen
  exact absurd hlen (by decide)


/-- Witness for number_int64_roundtrip at 2^53 + 1, a value with more
significant digits than a 64-bit double holds exactly. -/
theorem number_int64_roundtrip_witness :
    prettyNumberF ((natRepr 9007199254740993).data) = .ok (natRepr 9007199254740993, []) :=
  number_int64_roundtrip 9007199254740993 (by norm_num)

theorem plain_ne (c : Char) (h : plainChar c) :
    c ≠ '\x08' ∧ c ≠ '\x0c' ∧ c ≠ '\n' ∧ c ≠ '\x0d' ∧ c ≠ '\t' ∧
      ¬(c.toNat < 32) ∧ c.toNat &&& 128 = 0 := by
  obtain ⟨h32, h128, hq, hb⟩ := h
  refine ⟨?_, ?_, ?_, ?_, ?_, by omega, ?_⟩
  · intro e; subst e; exact absurd h32 (by decide)
  · intro e; subst e; exact absurd h32 (by decide)
  · intro e; subst e; exact absurd h32 (by decide)
  · intro e; subst e; exact absurd h32 (by decide)
  · intro e; subst e; exact absurd h32 (by decide)
  · have ht := Nat.and_two_pow c.toNat 7
    rw [Nat.testBit_lt_two_pow (by omega : c.toNat < 2 ^ 7)] at ht
    simpa using ht

theorem parseStringLoop_plain (name : List Char) :
    ∀ f last acc (rest : List Char), name.length < f → (∀ c ∈ name, plainChar c) →
      parseStringLoop f (name ++ '"' :: rest) last acc = .ok (acc ++ String.mk name, rest) := by
  induction name with
  | nil =>
    intro f last acc rest hf _
    obtain ⟨g, rfl⟩ : ∃ g, f = g + 1 := ⟨f - 1, by omega⟩
    show PRes.ok (acc, rest) = PRes.ok (acc ++ String.mk [], rest)
    have : acc ++ String.mk [] = acc := by
      apply String.ext
      simp [String.data_append]
    rw [this]
  | cons c cs ih =>
    intro f last acc rest hf hp
    obtain ⟨g, rfl⟩ : ∃ g, f = g + 1 := ⟨f - 1, by omega⟩
    have hc := hp c (by simp)
    obtain ⟨h32, h128, hq, hb⟩ := hc
    simp only [List.cons_append, parseStringLoop, getC]
    rw [if_neg hq, if_neg hb]
    rw [ih g c (acc.push c) rest (by simpa using hf) (fun x hx => hp x (by simp [hx]))]
    have : acc.push c ++ String.mk cs = acc ++ String.mk (c :: cs) := by
      apply String.ext
      simp [String.data_append, String.data_push]
    rw [this]

theorem parseStringS_plain (name rest : List Char) (h : ∀ c ∈ name, plainChar c) :
    parseStringS ('"' :: name ++ '"' :: rest) = .ok (String.mk name, rest) := by
  unfold parseStringS parseStringF
  have hexp : expectAfterSpace ('"' :: name ++ '"' :: rest) '"' = .ok (name ++ '"' :: rest) := by
    simp [expectAfterSpace, skipSpaceF, isSpaceB]
  rw [hexp]
  have : ('"' :: name ++ '"' :: rest).length + 2 = name.length + rest.length + 4 := by
    simp
    omega
  rw [this]
  exact parseStringLoop_plain name _ _ _ _ (by omega) h

theorem escapeLoop_plain (name : List Char) :
    ∀ f acc, name.length < f → (∀ c ∈ name, plainChar c) →
      escapeLoop f name acc = .ok (acc ++ String.mk name) := by
  induction name with
  | nil =>
    intro f acc hf _
    obtain ⟨g, rfl⟩ : ∃ g, f = g + 1 := ⟨f - 1, by omega⟩
    show PRes.ok acc = PRes.ok (acc ++ String.mk [])
    have : acc ++ String.mk [] = acc := by
      apply String.ext
      simp [String.data_append]
    rw [this]
  | cons c cs ih =>
    intro f acc hf hp
    have hc := hp c (by simp)
    obtain ⟨hq8, hqc, hqn, hqr, hqt, hlt, hand⟩ := plain_ne c hc
    obtain ⟨h32, h128, hq, hb⟩ := hc
    obtain ⟨g, rfl⟩ : ∃ g, f = g + 1 := ⟨f - 1, by omega⟩
    simp only [escapeLoop]
    rw [if_neg hq8, if_neg hqc, if_neg hqn, if_neg hq, if_neg hb, if_neg hqr, if_neg hqt,
      if_neg hlt]
    rw [if_neg (by simpa using hand)]
    rw [ih g (acc.push c) (by simpa using hf) (fun x hx => hp x (by simp [hx]))]
    have : acc.push c ++ String.mk cs = acc ++ String.mk (c :: cs) := by
      apply String.ext
      simp [String.data_append, String.data_push]
    rw [this]

theorem escape_plain (name : List Char) (h : ∀ c ∈ name, plainChar c) :
    escape name = .ok (String.mk name) := by
  unfold escape
  have := escapeLoop_plain name (name.length + 1) "" (by omega) h
  rw [this]
  have : ("" : String) ++ String.mk name = String.mk name := by
    apply String.ext
    simp [String.data_append]
  rw [this]

theorem natRepr_head_digit (v : Nat) :
    ∃ d ds, (natRepr v).data = d :: ds ∧ isDigitB d = true ∧
      (∀ c ∈ ds, isDigitB c = true) := by
  by_cases h0 : v = 0
  · subst h0
    exact ⟨'0', [], rfl, by decide, by simp⟩
  · have hne : natDigits v ≠ [] := by
      unfold natDigits
      cases hv : v with
      | zero => exact absurd hv h0
      | succ g => rw [← hv]; rw [hv]; exact natDigitsAux_ne_nil g _ (by omega)
    rcases hl : natDigits v with _ | ⟨d, ds⟩
    · exact absurd hl hne
    · have hdig : ∀ c ∈ natDigits v, isDigitB c = true := natDigitsAux_digits v v
      refine ⟨d, ds, ?_, ?_, ?_⟩
      · simp [natRepr, if_neg h0, hl]
      · rw [hl] at hdig; exact hdig d (by simp)
      · intro c hc; rw [hl] at hdig; exact hdig c (by simp [hc])

theorem peekTypeF_digit (c : Char) (cs : List Char) (hc : isDigitB c = true) :
    peekTypeF (c :: cs) = .ok (.JNumber, c :: cs) := by
  obtain ⟨hsp, hm, hob, har, hq, ht, hf, hn⟩ := digit_char_facts c hc
  unfold peekTypeF
  simp only [skipSpaceF, hsp, Bool.false_eq_true, if_false]
  rw [if_neg hob, if_neg har, if_neg hq, if_neg hm]
  rw [if_neg (by simp [ht, hf]), if_neg hn, if_pos hc]

theorem prettyNumberF_natRepr (v : Nat) (T : List Char) (hv : v < 2 ^ 63)
    (hT : ∀ c ∈ T.take 1, isDigitB c = false) :
    prettyNumberF ((natRepr v).data ++ T) = .ok (natRepr v, T) := by
  have hp := parseIntRaw_natRepr v T hT
  unfold prettyNumberF parseNumberLong
  rw [hp]
  show PRes.ok (renderLong (toInt64 (v : Int)), T) = _
  rw [toInt64_of_small v hv]
  unfold renderLong
  have hnn : ¬((v : Int) < 0) := not_lt.2 (Int.natCast_nonneg v)
  rw [if_neg hnn]
  simp

theorem prettyF_natRepr (g iw level : Nat) (v : Nat) (T : List Char) (hv : v < 2 ^ 63)
    (hT : ∀ c ∈ T.take 1, isDigitB c = false) :
    prettyF (g + 1) iw level ((natRepr v).data ++ T) = .ok (natRepr v, T) := by
  obtain ⟨d, ds, hdata, hd, _⟩ := natRepr_head_digit v
  have hcons : (natRepr v).data ++ T = d :: (ds ++ T) := by rw [hdata]; simp
  rw [hcons]
  have hpeek := peekTypeF_digit d (ds ++ T) hd
  simp only [prettyF, hpeek]
  rw [← hcons]
  exact prettyNumberF_natRepr v T hv hT

theorem pad_zero (iw : Nat) : pad iw 0 = "" := by
  simp [pad]

theorem encodeTail_cons (p : String × Nat) (fs : List (String × Nat)) :
    encodeTail (p :: fs) = ',' :: encodeField p.1 p.2 ++ encodeTail fs := rfl

theorem encodeTail_head_not_digit (fs : List (String × Nat)) :
    ∀ c ∈ (encodeTail fs ++ ['\x7d']).take 1, isDigitB c = false := by
  cases fs with
  | nil => intro c hc; simp [encodeTail] at hc; subst hc; decide
  | cons p rest =>
    intro c hc
    rw [encodeTail_cons] at hc
    simp at hc
    subst hc
    decide

theorem expectAfterSpace_colon (l2 : List Char) :
    expectAfterSpace (':' :: l2) ':' = .ok l2 := rfl

theorem prettyObjectLoopF_quote_step (f iw level count : Nat) (X : List Char) (acc : String) :
    prettyObjectLoopF (f + 1) iw level count ('"' :: X) acc =
      (match parseStringS ('"' :: X) with
      | .ok (name, l2) =>
        match expectAfterSpace l2 ':' with
        | .ok l3 =>
          match escape name.data with
          | .ok en =>
            match prettyF f iw (level + 1) l3 with
            | .ok (s, l4) => prettyObjectLoopF f iw level (count + 1) l4
                (acc ++ (if count ≠ 0 then "," else "") ++ "\n" ++ pad iw (level + 1) ++
                  "\"" ++ en ++ "\": " ++ s)
            | .err e => .err e
            | .div => .div
          | .err e => .err e
          | .div => .div
        | .err e => .err e
        | .div => .div
      | .err e => .err e
      | .div => .div) := rfl

theorem prettyObjectLoopF_field_step (f iw level count : Nat) (X l2 l4 : List Char)
    (acc name s en : String)
    (hps : parseStringS ('"' :: X) = .ok (name, ':' :: l2))
    (hesc : escape name.data = .ok en)
    (hchild : prettyF f iw (level + 1) l2 = .ok (s, l4)) :
    prettyObjectLoopF (f + 1) iw level count ('"' :: X) acc =
      prettyObjectLoopF f iw level (count + 1) l4
        (acc ++ (if count ≠ 0 then "," else "") ++ "\n" ++ pad iw (level + 1) ++
          "\"" ++ en ++ "\": " ++ s) := by
  rw [prettyObjectLoopF_quote_step, hps]
  simp only [expectAfterSpace_colon, hesc, hchild]

theorem prettyObjectLoopF_tail (iw : Nat) : ∀ (fs : List (String × Nat)) (f count : Nat)
    (acc : String), 2 * fs.length + 1 ≤ f → count ≠ 0 →
    (∀ p ∈ fs, ∀ c ∈ p.1.data, plainChar c) → (∀ p ∈ fs, p.2 < 2 ^ 63) →
    prettyObjectLoopF f iw 0 count (encodeTail fs ++ ['\x7d']) acc =
      .ok (acc ++ renderTail iw fs ++ "\n\x7d", []) := by
  intro fs
  induction fs with
  | nil =>
    intro f count acc hf hcount _ _
    obtain ⟨g, rfl⟩ : ∃ g, f = g + 1 := ⟨f - 1, by omega⟩
    show (PRes.ok (acc ++ (if count ≠ 0 then "\n" ++ pad iw 0 else "") ++ "\x7d", []) :
      PRes (String × List Char)) = _
    rw [if_pos hcount, pad_zero]
    simp only [PRes.ok.injEq, Prod.mk.injEq, and_true]
    apply String.ext
    simp [String.data_append, renderTail]
  | cons p fs ih =>
    intro f count acc hf hcount hn hv
    obtain ⟨n, v⟩ := p
    simp only [List.length_cons] at hf
    obtain ⟨g, rfl⟩ : ∃ g, f = g + 1 := ⟨f - 1, by omega⟩
    obtain ⟨g2, rfl⟩ : ∃ g2, g = g2 + 1 := ⟨g - 1, by omega⟩
    -- first iteration: the comma separator (defeq step on concrete chars)
    rw [encodeTail_cons]
    have hstep : prettyObjectLoopF (g2 + 1 + 1) iw 0 count
        ((',' :: encodeField n v ++ encodeTail fs) ++ ['\x7d']) acc =
        prettyObjectLoopF (g2 + 1) iw 0 count
          ((encodeField n v ++ encodeTail fs) ++ ['\x7d']) acc := rfl
    rw [hstep, List.append_assoc]
    -- second iteration: the field itself
    have hname : ∀ c ∈ n.data, plainChar c := hn (n, v) (by simp)
    have hvv : v < 2 ^ 63 := hv (n, v) (by simp)
    have hfield : encodeField n v ++ (encodeTail fs ++ ['\x7d']) =
        '"' :: (n.data ++ '"' :: ':' :: ((natRepr v).data ++ (encodeTail fs ++ ['\x7d']))) := by
      simp [encodeField]
    rw [hfield]
    obtain ⟨g3, rfl⟩ : ∃ g3, g2 = g3 + 1 := ⟨g2 - 1, by omega⟩
    have hname : ∀ c ∈ n.data, plainChar c := hn (n, v) (by simp)
    have hvv : v < 2 ^ 63 := hv (n, v) (by simp)
    rw [prettyObjectLoopF_field_step (g3 + 1) iw 0 count
      (n.data ++ '"' :: ':' :: ((natRepr v).data ++ (encodeTail fs ++ ['\x7d'])))
      ((natRepr v).data ++ (encodeTail fs ++ ['\x7d']))
      (encodeTail fs ++ ['\x7d']) acc (String.mk n.data)
      (natRepr v) (String.mk n.data)
      (parseStringS_plain n.data (':' :: ((natRepr v).data ++ (encodeTail fs ++ ['\x7d']))) hname)
      (escape_plain n.data hname)
      (prettyF_natRepr g3 iw 1 v (encodeTail fs ++ ['\x7d']) hvv (encodeTail_head_not_digit fs))]
    rw [ih (g3 + 1) (count + 1) _ (by omega) (by omega) (fun p hp => hn p (by simp [hp]))
      (fun p hp => hv p (by simp [hp]))]
    simp only [PRes.ok.injEq, Prod.mk.injEq, and_true]
    rw [if_pos hcount]
    have heta : String.mk n.data = n := rfl
    rw [heta]
    apply String.ext
    simp [String.data_append, renderTail, renderField]

/-- C1, confirmed: for every object literal (any number of fields, any
order, names of printable ASCII without quote or backslash, number
values), parseObject drives the visitor once per field in source order
and the pretty-printer emits exactly the canonical text whose field
sequence is the input sequence: nothing is sorted or reordered. -/
theorem object_field_order_preserved (iw : Nat) (fs : List (String × Nat))
    (hn : ∀ p ∈ fs, ∀ c ∈ p.1.data, plainChar c)
    (hv : ∀ p ∈ fs, p.2 < 2 ^ 63) :
    prettyF (2 * fs.length + 3) iw 0 (encodeObj fs) = .ok (renderObj iw fs, []) := by
  cases fs with
  | nil => rfl
  | cons p rest =>
    obtain ⟨n, v⟩ := p
    simp only [List.length_cons]
    have hfuel : 2 * (rest.length + 1) + 3 = 2 * rest.length + 4 + 1 := by ring
    rw [hfuel]
    have hobj : encodeObj ((n, v) :: rest) =
        '\x7b' :: (encodeField n v ++ (encodeTail rest ++ ['\x7d'])) := by
      simp [encodeObj]
    rw [hobj]
    have hpeek : peekTypeF ('\x7b' :: (encodeField n v ++ (encodeTail rest ++ ['\x7d']))) =
        .ok (.JObject, '\x7b' :: (encodeField n v ++ (encodeTail rest ++ ['\x7d']))) := rfl
    simp only [prettyF, hpeek]
    rw [show 2 * rest.length + 4 = 2 * rest.length + 3 + 1 from rfl]
    have hexp : expectAfterSpace
        ('\x7b' :: (encodeField n v ++ (encodeTail rest ++ ['\x7d']))) '\x7b' =
        .ok (encodeField n v ++ (encodeTail rest ++ ['\x7d'])) := rfl
    simp only [prettyObjectF, hexp]
    have hname : ∀ c ∈ n.data, plainChar c := hn (n, v) (by simp)
    have hvv : v < 2 ^ 63 := hv (n, v) (by simp)
    have hfield : encodeField n v ++ (encodeTail rest ++ ['\x7d']) =
        '"' :: (n.data ++ '"' :: ':' :: ((natRepr v).data ++ (encodeTail rest ++ ['\x7d']))) := by
      simp [encodeField]
    rw [hfield]
    rw [show 2 * rest.length + 3 = 2 * rest.length + 2 + 1 from rfl]
    rw [prettyObjectLoopF_field_step (2 * rest.length + 2) iw 0 0
      (n.data ++ '"' :: ':' :: ((natRepr v).data ++ (encodeTail rest ++ ['\x7d'])))
      ((natRepr v).data ++ (encodeTail rest ++ ['\x7d']))
      (encodeTail rest ++ ['\x7d']) "\x7b" (String.mk n.data)
      (natRepr v) (String.mk n.data)
      (parseStringS_plain n.data (':' :: ((natRepr v).data ++ (encodeTail rest ++ ['\x7d']))) hname)
      (escape_plain n.data hname)
      (by
        rw [show 2 * rest.length + 2 = 2 * rest.length + 1 + 1 from rfl]
        exact prettyF_natRepr (2 * rest.length + 1) iw 1 v (encodeTail rest ++ ['\x7d']) hvv
          (encodeTail_head_not_digit rest))]
    rw [prettyObjectLoopF_tail iw rest (2 * rest.length + 2) 1 _ (by omega) (by omega)
      (fun p hp => hn p (by simp [hp])) (fun p hp => hv p (by simp [hp]))]
    simp only [PRes.ok.injEq, Prod.mk.injEq, and_true]
    have heta : String.mk n.data = n := rfl
    rw [heta]
    apply String.ext
    simp [String.data_append, renderObj, renderTail, renderField]


/-- Witness for object_field_order_preserved at the spec's example
object with fields b then a: the output lists b before a. -/
theorem object_field_order_preserved_witness :
    prettyF 7 2 0 (encodeObj [("b", 1), ("a", 2)]) =
      .ok (renderObj 2 [("b", 1), ("a", 2)], []) :=
  object_field_order_preserved 2 [("b", 1), ("a", 2)] (by decide) (by decide)

end JSONdent
